import Mathlib

/-!
Verification of the crossbench function-version resolution and caching
subsystem (`cmd/functions.go`).

The Go code is shallowly embedded: Go strings are Lean `String`s (a wrapper
around `List Char`; the `strings` package helpers used by the code are
re-defined below over `String.data` so that everything kernel-reduces), the
Go `map[string]CacheEntry` is an association list with overwrite-on-insert
semantics, `time.Time`/`time.Duration` are `Int` nanosecond counts with an
explicit `now` parameter, and the effectful collaborators (the cache file on
disk, the GitHub HTTP fetch) are explicit values: a `FileState` describing
the observable outcomes of reading the cache file, and a fetch oracle
`String → String → FetchResult`.  Environment-derived configuration is a
`Config` record passed explicitly.
-/

set_option maxRecDepth 4000

namespace Crossbench

/-- Embedding of Go `strings.Contains(s, c)` where `c` is a single
character (the source only ever searches for `"/"` and `":"`). -/
def goContains (s : String) (c : Char) : Bool :=
  s.data.contains c

/-- Embedding of Go `strings.HasPrefix(s, p)`. -/
def goStartsWith (s p : String) : Bool :=
  p.data.isPrefixOf s.data

/-- Embedding of Go `strings.TrimSpace(s)` (leading and trailing
whitespace removed). -/
def goTrimSpace (s : String) : String :=
  ⟨((s.data.dropWhile Char.isWhitespace).reverse.dropWhile Char.isWhitespace).reverse⟩

/-- CacheEntry from `cmd/functions.go`: a cached version string together
with the `fetched_at` timestamp (nanoseconds). -/
structure CacheEntry where
  version : String
  fetchedAt : Int
deriving DecidableEq

/-- Underlying store of `FunctionVersionCache.Versions`: the Go
`map[string]CacheEntry`, modelled as an association list. -/
abbrev Store := List (String × CacheEntry)

/-- Go map read `m[k]`: the entry stored under `k`, if any. -/
def storeLookup : Store → String → Option CacheEntry
  | [], _ => none
  | (k, e) :: rest, key => if k = key then some e else storeLookup rest key

/-- Go map write `m[k] = e`: overwrite the entry under `k`, appending a new
binding when the key is absent. -/
def storeInsert : Store → String → CacheEntry → Store
  | [], key, e => [(key, e)]
  | (k, e') :: rest, key, e =>
    if k = key then (key, e) :: rest else (k, e') :: storeInsert rest key e

/-- FunctionVersionCache from `cmd/functions.go`. -/
structure FunctionVersionCache where
  versions : Store
deriving DecidableEq

/-- Observable outcomes of reading the cache file, as distinguished by
`loadCache`: the file may be absent (`os.IsNotExist`), unreadable for some
other reason, readable but not valid JSON for the cache struct, or readable
and well formed (`parsed`), in which case the JSON may or may not carry a
`versions` field (`none` models a JSON document whose `versions` field is
absent, which Go unmarshals to a nil map). -/
inductive FileState where
  | missing
  | unreadable
  | malformed
  | parsed (versions : Option Store)
deriving DecidableEq

/-- Error returned by `loadCache` when `afero.ReadFile` fails with an error
other than non-existence (`failed to read cache file`). -/
inductive CacheIOErr where
  | readFailed
deriving DecidableEq

/-- Empty cache value `&FunctionVersionCache{Versions: make(map[string]CacheEntry)}`. -/
def emptyCache : FunctionVersionCache := ⟨[]⟩

/-- Embedding of `loadCache` (`cmd/functions.go` lines 79-105).  A missing
file and a JSON-unmarshal failure yield an empty cache; a read error other
than non-existence is returned as an error; a parsed file with a nil
`versions` map is normalised to an empty map. -/
def loadCache : FileState → Except CacheIOErr FunctionVersionCache
  | .missing => .ok emptyCache
  | .unreadable => .error .readFailed
  | .malformed => .ok emptyCache
  | .parsed none => .ok emptyCache
  | .parsed (some vs) => .ok ⟨vs⟩

/-- Embedding of `saveCache`: the cache file afterwards holds exactly the
serialised store (marshalling of this struct cannot fail, and the write is
modelled as succeeding; a failed write is swallowed by the caller anyway). -/
def saveCache (cache : FunctionVersionCache) : FileState :=
  .parsed (some cache.versions)

/-- Embedding of `getCachedVersion` (`cmd/functions.go` lines 128-142) with
the configured expiration and the current time passed explicitly;
`now - entry.fetchedAt` is `time.Since(entry.FetchedAt)`. -/
def getCachedVersion (expiration now : Int) (cache : FunctionVersionCache)
    (cacheKey : String) : String × Bool :=
  match storeLookup cache.versions cacheKey with
  | none => ("", false)
  | some entry =>
    if now - entry.fetchedAt > expiration then ("", false)
    else (entry.version, true)

/-- Embedding of `setCachedVersion` (`cmd/functions.go` lines 145-150):
insert or overwrite the entry with `fetchedAt = now`. -/
def setCachedVersion (now : Int) (cache : FunctionVersionCache)
    (cacheKey version : String) : FunctionVersionCache :=
  ⟨storeInsert cache.versions cacheKey ⟨version, now⟩⟩

theorem storeLookup_storeInsert_self (s : Store) (key : String) (e : CacheEntry) :
    storeLookup (storeInsert s key e) key = some e := by
  induction s with
  | nil => simp [storeInsert, storeLookup]
  | cons p rest ih =>
    obtain ⟨k, e'⟩ := p
    by_cases hk : k = key
    · simp [storeInsert, storeLookup, hk]
    · simp [storeInsert, storeLookup, hk, ih]

/-- C8: for every store, key, version and every TTL > 0, `set` followed
immediately by `get` (same `now`) returns the version just stored, with
`found = true`. -/
theorem set_then_get_hits (expiration now : Int) (cache : FunctionVersionCache)
    (key v : String) (h : 0 < expiration) :
    getCachedVersion expiration now (setCachedVersion now cache key v) key = (v, true) := by
  unfold getCachedVersion setCachedVersion
  rw [storeLookup_storeInsert_self]
  simp only
  rw [if_neg]
  omega

/-- Witness for `set_then_get_hits` at a concrete store, key, version and TTL. -/
theorem set_then_get_hits_witness :
    (0 : Int) < 7 ∧
      getCachedVersion 7 100 (setCachedVersion 100 ⟨[("k", ⟨"v0", 1⟩)]⟩ "k" "v1") "k"
        = ("v1", true) :=
  ⟨by decide, set_then_get_hits 7 100 ⟨[("k", ⟨"v0", 1⟩)]⟩ "k" "v1" (by decide)⟩

/-- C9: for every store and key whose entry is older than the TTL, `get`
reports `found = false` while the expired entry is still present, unchanged,
under its key (`getCachedVersion` never mutates the store). -/
theorem get_expired_not_found_entry_kept (expiration now : Int)
    (cache : FunctionVersionCache) (key : String) (entry : CacheEntry)
    (hentry : storeLookup cache.versions key = some entry)
    (hexp : now - entry.fetchedAt > expiration) :
    getCachedVersion expiration now cache key = ("", false) ∧
      storeLookup cache.versions key = some entry := by
  refine ⟨?_, hentry⟩
  unfold getCachedVersion
  rw [hentry]
  simp only
  rw [if_pos hexp]

/-- Witness for `get_expired_not_found_entry_kept` on a concrete stale entry. -/
theorem get_expired_not_found_entry_kept_witness :
    getCachedVersion 10 100 ⟨[("k", ⟨"v0", 1⟩)]⟩ "k" = ("", false) ∧
      storeLookup [("k", ⟨"v0", 1⟩)] "k" = some ⟨"v0", 1⟩ :=
  get_expired_not_found_entry_kept 10 100 ⟨[("k", ⟨"v0", 1⟩)]⟩ "k" ⟨"v0", 1⟩
    (by decide) (by decide)

/-- C2 counterexample: loading the cache does not return a store for every
cache-file state; a file that exists but cannot be read (a read failure
other than non-existence) makes `loadCache` propagate an error to the
caller instead of yielding an empty store. -/
theorem loadCache_unreadable_errors :
    loadCache FileState.unreadable = Except.error CacheIOErr.readFailed := by
  rfl

/-- C2 amended: a missing cache file and a cache file holding malformed
JSON (or JSON without a `versions` field) each yield an empty store, and a
well-formed file yields its parsed store, but a read failure other than
non-existence is propagated as an error rather than yielding an empty
store. -/
theorem loadCache_tolerance :
    loadCache FileState.missing = Except.ok emptyCache ∧
      loadCache FileState.malformed = Except.ok emptyCache ∧
      loadCache (FileState.parsed none) = Except.ok emptyCache ∧
      (∀ vs : Store, loadCache (FileState.parsed (some vs)) = Except.ok ⟨vs⟩) ∧
      loadCache FileState.unreadable = Except.error CacheIOErr.readFailed :=
  ⟨rfl, rfl, rfl, fun _ => rfl, rfl⟩

/-- Configuration derived from the environment in the source
(`getCacheExpiration`, `getDefaultGitHubOwner`, `getDefaultPackageRegistry`,
`getUpboundPackageRegistry`, `getUpboundFunctionNames`), gathered into one
record and passed explicitly. -/
structure Config where
  cacheExpiration : Int
  defaultOwner : String
  defaultRegistry : String
  upboundRegistry : String
  upboundFunctions : List String
deriving DecidableEq

/-- Default configuration when none of the `CROSSBENCH_*` environment
variables is set: 24h TTL in nanoseconds, owner `crossplane-contrib`,
registries `xpkg.crossplane.io` / `xpkg.upbound.io`, and the allow-list
`["function-unit-test"]`. -/
def defaultConfig : Config :=
  { cacheExpiration := 86400000000000
    defaultOwner := "crossplane-contrib"
    defaultRegistry := "xpkg.crossplane.io"
    upboundRegistry := "xpkg.upbound.io"
    upboundFunctions := ["function-unit-test"] }

/-- Embedding of `mapFunctionNameToGitHubRepo` (`cmd/functions.go` lines
298-315) with the default owner passed explicitly.  The Go function has an
`error` result but every return statement passes a nil error, so the `.ok`
constructor is the only one produced. -/
def mapFunctionNameToGitHubRepo (owner functionName : String) :
    Except String (String × String) :=
  let repo :=
    if goStartsWith functionName "crossplane-contrib-function-" then
      "function-" ++ (⟨functionName.data.drop "crossplane-contrib-function-".data.length⟩ : String)
    else if goStartsWith functionName "function-" then
      functionName
    else
      "function-" ++ functionName
  .ok (owner, repo)

/-- Loop of `getPackageRegistry` over the allow-list: the first entry whose
whitespace-trimmed form equals the function name routes to the Upbound
registry; otherwise the default registry is used. -/
def selectRegistry (upboundRegistry defaultRegistry functionName : String) :
    List String → String
  | [] => defaultRegistry
  | fn :: rest =>
    if goTrimSpace fn = functionName then upboundRegistry
    else selectRegistry upboundRegistry defaultRegistry functionName rest

/-- Embedding of `getPackageRegistry` (`cmd/functions.go` lines 346-356). -/
def getPackageRegistry (cfg : Config) (functionName : String) : String :=
  selectRegistry cfg.upboundRegistry cfg.defaultRegistry functionName cfg.upboundFunctions

/-- Outcome of one call of `fetchLatestReleaseVersion`, as classified by the
caller: a tag name, a `*RateLimitError` (a 403 whose body carries a
rate-limit marker), or any other error. -/
inductive FetchResult where
  | ok (version : String)
  | rateLimited (msg : String)
  | failure (msg : String)
deriving DecidableEq

/-- Error result of `inferPackageFromFunctionName`.  The constructors keep
the distinctions the Go code makes through wrapping: `rateLimitedNoCache`
wraps a `*RateLimitError` (recoverable via `errors.As`/unwrapping), while
`fetchFailed` wraps a generic error. -/
inductive InferErr where
  | emptyName
  | mapFailed (name : String)
  | rateLimitedNoCache (owner repo msg : String)
  | fetchFailed (owner repo msg : String)
deriving DecidableEq

instance {ε α : Type} [DecidableEq ε] [DecidableEq α] : DecidableEq (Except ε α) := fun x y =>
  match x, y with
  | .ok a, .ok b =>
    if h : a = b then .isTrue (by rw [h])
    else .isFalse (by intro hc; cases hc; exact h rfl)
  | .error a, .error b =>
    if h : a = b then .isTrue (by rw [h])
    else .isFalse (by intro hc; cases hc; exact h rfl)
  | .ok _, .error _ => .isFalse (by intro hc; cases hc)
  | .error _, .ok _ => .isFalse (by intro hc; cases hc)

/-- Result of one resolution, together with ghost observability fields
recording which effects the source lines performed: the final state of the
cache file, the final in-memory store, and whether `loadCache`,
`fetchLatestReleaseVersion` and `saveCache` were invoked. -/
structure InferOutcome where
  result : Except InferErr String
  file : FileState
  store : Store
  loaded : Bool
  fetched : Bool
  saved : Bool
deriving DecidableEq

/-- In-memory cache used by the resolver: the loaded cache, or an empty one
when loading fails (`cmd/functions.go` lines 235-239 continue without cache). -/
def loadedStore (file : FileState) : FunctionVersionCache :=
  match loadCache file with
  | .ok c => c
  | .error _ => emptyCache

/-- Final package coordinate `registry/owner/repo:version`
(`cmd/functions.go` lines 277-282); the registry is selected from the raw
function name. -/
def packageCoordinate (cfg : Config) (name owner repo version : String) : String :=
  getPackageRegistry cfg name ++ "/" ++ owner ++ "/" ++ repo ++ ":" ++ version

/-- Fetch branch of the resolver (`cmd/functions.go` lines 250-275): on a
cache miss, an expired entry, or a forced refresh, fetch the latest release;
on success the version is stored and the cache persisted; on a rate limit a
pre-existing (possibly stale) entry is used as fallback without touching the
cache, and with no entry at all the wrapped `RateLimitError` is returned;
any other fetch error is returned wrapped. -/
def fetchAndFallback (cfg : Config) (fetch : String → String → FetchResult) (now : Int)
    (name owner repo : String) (cache : FunctionVersionCache) (cacheKey : String)
    (file : FileState) : InferOutcome :=
  match fetch owner repo with
  | .ok v =>
    let cache' := setCachedVersion now cache cacheKey v
    ⟨.ok (packageCoordinate cfg name owner repo v), saveCache cache',
      cache'.versions, true, true, true⟩
  | .rateLimited msg =>
    match storeLookup cache.versions cacheKey with
    | some staleEntry =>
      ⟨.ok (packageCoordinate cfg name owner repo staleEntry.version), file,
        cache.versions, true, true, false⟩
    | none =>
      ⟨.error (.rateLimitedNoCache owner repo msg), file, cache.versions,
        true, true, false⟩
  | .failure msg =>
    ⟨.error (.fetchFailed owner repo msg), file, cache.versions, true, true, false⟩

/-- Embedding of `inferPackageFromFunctionName` (`cmd/functions.go` lines
214-283).  `fetch` is the remote client, `now` the current time, `file` the
state of the cache file on entry. -/
def inferPackageFromFunctionName (cfg : Config) (fetch : String → String → FetchResult)
    (now : Int) (name : String) (forceRefresh : Bool) (file : FileState) : InferOutcome :=
  if name = "" then
    ⟨.error .emptyName, file, [], false, false, false⟩
  else if goContains name '/' || goContains name ':' then
    ⟨.ok name, file, [], false, false, false⟩
  else
    match mapFunctionNameToGitHubRepo cfg.defaultOwner name with
    | .error _ => ⟨.error (.mapFailed name), file, [], false, false, false⟩
    | .ok (owner, repo) =>
      let cacheKey := owner ++ "/" ++ repo
      let cache := loadedStore file
      let vf := getCachedVersion cfg.cacheExpiration now cache cacheKey
      if vf.2 && !forceRefresh then
        ⟨.ok (packageCoordinate cfg name owner repo vf.1), file, cache.versions, true, false, false⟩
      else
        fetchAndFallback cfg fetch now name owner repo cache cacheKey file

theorem goStartsWith_append (p b : String) : goStartsWith (p ++ b) p = true := by
  unfold goStartsWith
  rw [String.data_append, List.isPrefixOf_iff_prefix]
  exact List.prefix_append _ _

theorem data_drop_append (p b : String) :
    (p ++ b).data.drop p.data.length = b.data := by
  rw [String.data_append]
  exact List.drop_left _ _

theorem not_contrib_of_function_start (name : String)
    (h : goStartsWith name "function-" = true) :
    goStartsWith name "crossplane-contrib-function-" = false := by
  unfold goStartsWith at h ⊢
  rw [show ∀ x y : List Char, List.isPrefixOf x y = true ↔ x <+: y from
    fun x y => List.isPrefixOf_iff_prefix] at h
  by_contra hc
  rw [Bool.not_eq_false, show ∀ x y : List Char, List.isPrefixOf x y = true ↔ x <+: y from
    fun x y => List.isPrefixOf_iff_prefix] at hc
  rcases List.prefix_or_prefix_of_prefix h hc with h' | h'
  · exact absurd h' (by decide)
  · exact absurd h' (by decide)

/-- C6: name mapping never fails (every input yields an `.ok` pair carrying
the configured owner), and the repo name is: `"function-" ++ base` when the
name is `"crossplane-contrib-function-" ++ base`; the name itself when it
already starts with `"function-"`; and `"function-" ++ name` otherwise. -/
theorem mapFunctionNameToGitHubRepo_spec (owner : String) :
    (∀ name, ∃ repo, mapFunctionNameToGitHubRepo owner name = .ok (owner, repo)) ∧
    (∀ base, mapFunctionNameToGitHubRepo owner ("crossplane-contrib-function-" ++ base)
        = .ok (owner, "function-" ++ base)) ∧
    (∀ name, goStartsWith name "function-" = true →
        mapFunctionNameToGitHubRepo owner name = .ok (owner, name)) ∧
    (∀ name, goStartsWith name "crossplane-contrib-function-" = false →
        goStartsWith name "function-" = false →
        mapFunctionNameToGitHubRepo owner name = .ok (owner, "function-" ++ name)) := by
  refine ⟨fun name => ⟨_, rfl⟩, fun base => ?_, fun name h => ?_, fun name h1 h2 => ?_⟩
  · unfold mapFunctionNameToGitHubRepo
    rw [if_pos (goStartsWith_append "crossplane-contrib-function-" base)]
    rw [data_drop_append "crossplane-contrib-function-" base]
  · unfold mapFunctionNameToGitHubRepo
    rw [if_neg (by rw [not_contrib_of_function_start name h]; exact Bool.false_ne_true),
      if_pos h]
  · unfold mapFunctionNameToGitHubRepo
    rw [if_neg (by rw [h1]; exact Bool.false_ne_true),
      if_neg (by rw [h2]; exact Bool.false_ne_true)]

/-- Witness for `mapFunctionNameToGitHubRepo_spec`: the three concrete
examples from the specification, under the default owner. -/
theorem mapFunctionNameToGitHubRepo_spec_witness :
    mapFunctionNameToGitHubRepo "crossplane-contrib" "crossplane-contrib-function-foo"
        = .ok ("crossplane-contrib", "function-foo") ∧
      mapFunctionNameToGitHubRepo "crossplane-contrib" "function-bar"
        = .ok ("crossplane-contrib", "function-bar") ∧
      mapFunctionNameToGitHubRepo "crossplane-contrib" "baz"
        = .ok ("crossplane-contrib", "function-baz") := by
  refine ⟨?_, ?_, ?_⟩
  · have h := (mapFunctionNameToGitHubRepo_spec "crossplane-contrib").2.1 "foo"
    have e : ("crossplane-contrib-function-" ++ "foo" : String)
        = "crossplane-contrib-function-foo" := by decide
    have e2 : ("function-" ++ "foo" : String) = "function-foo" := by decide
    rw [e, e2] at h
    exact h
  · exact (mapFunctionNameToGitHubRepo_spec "crossplane-contrib").2.2.1 "function-bar"
      (by decide)
  · have h := (mapFunctionNameToGitHubRepo_spec "crossplane-contrib").2.2.2 "baz"
      (by decide) (by decide)
    have e : ("function-" ++ "baz" : String) = "function-baz" := by decide
    rw [e] at h
    exact h

/-- C5: an identifier that contains a path separator or a colon passes
through as the package coordinate unchanged, for every configuration, fetch
oracle, time, forceRefresh flag, and cache-file state: the resolution
cannot fail, the cache file is untouched, and no cache load, no remote
fetch and no cache save happen. -/
theorem passThrough_identifier (cfg : Config) (fetch : String → String → FetchResult)
    (now : Int) (name : String) (forceRefresh : Bool) (file : FileState)
    (h : goContains name '/' = true ∨ goContains name ':' = true) :
    inferPackageFromFunctionName cfg fetch now name forceRefresh file
      = ⟨.ok name, file, [], false, false, false⟩ := by
  have hne : ¬name = "" := by
    intro he
    subst he
    rcases h with h | h <;> exact absurd h (by decide)
  have hc : (goContains name '/' || goContains name ':') = true := by
    rcases h with h | h <;> simp [h]
  unfold inferPackageFromFunctionName
  rw [if_neg hne, if_pos hc]

/-- Witness for `passThrough_identifier` on the identifier `a/b` with an
always-rate-limited fetch oracle and an unreadable cache file. -/
theorem passThrough_identifier_witness :
    inferPackageFromFunctionName defaultConfig (fun _ _ => .rateLimited "limit") 5 "a/b"
        true FileState.unreadable
      = ⟨.ok "a/b", FileState.unreadable, [], false, false, false⟩ :=
  passThrough_identifier defaultConfig (fun _ _ => .rateLimited "limit") 5 "a/b" true
    FileState.unreadable (Or.inl (by decide))

theorem getCachedVersion_entry_fresh (expiration now : Int)
    (cache : FunctionVersionCache) (key : String) (entry : CacheEntry)
    (hentry : storeLookup cache.versions key = some entry)
    (hexp : ¬now - entry.fetchedAt > expiration) :
    getCachedVersion expiration now cache key = (entry.version, true) := by
  unfold getCachedVersion
  rw [hentry]
  exact if_neg hexp

theorem getCachedVersion_entry_stale (expiration now : Int)
    (cache : FunctionVersionCache) (key : String) (entry : CacheEntry)
    (hentry : storeLookup cache.versions key = some entry)
    (hexp : now - entry.fetchedAt > expiration) :
    getCachedVersion expiration now cache key = ("", false) := by
  unfold getCachedVersion
  rw [hentry]
  exact if_pos hexp

theorem getCachedVersion_no_entry (expiration now : Int)
    (cache : FunctionVersionCache) (key : String)
    (hnone : storeLookup cache.versions key = none) :
    getCachedVersion expiration now cache key = ("", false) := by
  unfold getCachedVersion
  rw [hnone]

theorem infer_resolution_unfold (cfg : Config) (fetch : String → String → FetchResult)
    (now : Int) (name : String) (forceRefresh : Bool) (file : FileState)
    (owner repo : String)
    (hne : name ≠ "")
    (hs : goContains name '/' = false) (hcol : goContains name ':' = false)
    (hmap : mapFunctionNameToGitHubRepo cfg.defaultOwner name = .ok (owner, repo)) :
    inferPackageFromFunctionName cfg fetch now name forceRefresh file
      = (if (getCachedVersion cfg.cacheExpiration now (loadedStore file)
              (owner ++ "/" ++ repo)).2 && !forceRefresh then
          ⟨.ok (packageCoordinate cfg name owner repo
              (getCachedVersion cfg.cacheExpiration now (loadedStore file)
                (owner ++ "/" ++ repo)).1),
            file, (loadedStore file).versions, true, false, false⟩
        else
          fetchAndFallback cfg fetch now name owner repo (loadedStore file)
            (owner ++ "/" ++ repo) file) := by
  have hcond : ¬((goContains name '/' || goContains name ':') = true) := by
    simp [hs, hcol]
  unfold inferPackageFromFunctionName
  rw [if_neg hne, if_neg hcond, hmap]

/-- C1: when the remote fetch is rate limited and the in-memory store
loaded from the cache file has an entry (fresh or stale) under the name's
cache key, resolution succeeds with that entry's version, and neither the
in-memory store nor the persisted cache file is modified (in particular the
entry's `fetched_at` is untouched, since no save is performed). -/
theorem rateLimit_stale_fallback (cfg : Config) (fetch : String → String → FetchResult)
    (now : Int) (name : String) (forceRefresh : Bool) (file : FileState)
    (owner repo msg : String) (entry : CacheEntry)
    (hne : name ≠ "")
    (hs : goContains name '/' = false) (hcol : goContains name ':' = false)
    (hmap : mapFunctionNameToGitHubRepo cfg.defaultOwner name = .ok (owner, repo))
    (hentry : storeLookup (loadedStore file).versions (owner ++ "/" ++ repo) = some entry)
    (hfetch : fetch owner repo = .rateLimited msg) :
    (inferPackageFromFunctionName cfg fetch now name forceRefresh file).result
        = .ok (packageCoordinate cfg name owner repo entry.version) ∧
      (inferPackageFromFunctionName cfg fetch now name forceRefresh file).file = file ∧
      (inferPackageFromFunctionName cfg fetch now name forceRefresh file).store
        = (loadedStore file).versions ∧
      (inferPackageFromFunctionName cfg fetch now name forceRefresh file).saved = false := by
  rw [infer_resolution_unfold cfg fetch now name forceRefresh file owner repo hne hs hcol hmap]
  by_cases hexp : now - entry.fetchedAt > cfg.cacheExpiration
  · rw [getCachedVersion_entry_stale _ _ _ _ _ hentry hexp, if_neg (by simp)]
    unfold fetchAndFallback
    rw [hfetch, hentry]
    exact ⟨rfl, rfl, rfl, rfl⟩
  · by_cases hf : forceRefresh = true
    · rw [getCachedVersion_entry_fresh _ _ _ _ _ hentry hexp, hf, if_neg (by simp)]
      unfold fetchAndFallback
      rw [hfetch, hentry]
      exact ⟨rfl, rfl, rfl, rfl⟩
    · have hf' : forceRefresh = false := by simpa using hf
      rw [getCachedVersion_entry_fresh _ _ _ _ _ hentry hexp, hf', if_pos (by simp)]
      exact ⟨rfl, rfl, rfl, rfl⟩

/-- Witness for `rateLimit_stale_fallback`: a rate-limited fetch for `foo`
with a cached entry for `crossplane-contrib/function-foo`. -/
theorem rateLimit_stale_fallback_witness :
    (inferPackageFromFunctionName defaultConfig (fun _ _ => .rateLimited "rl") 100 "foo"
        false (.parsed (some [("crossplane-contrib/function-foo", ⟨"v0.1.0", 3⟩)]))).result
        = .ok "xpkg.crossplane.io/crossplane-contrib/function-foo:v0.1.0" ∧
      (inferPackageFromFunctionName defaultConfig (fun _ _ => .rateLimited "rl") 100 "foo"
        false (.parsed (some [("crossplane-contrib/function-foo", ⟨"v0.1.0", 3⟩)]))).file
        = .parsed (some [("crossplane-contrib/function-foo", ⟨"v0.1.0", 3⟩)]) ∧
      (inferPackageFromFunctionName defaultConfig (fun _ _ => .rateLimited "rl") 100 "foo"
        false (.parsed (some [("crossplane-contrib/function-foo", ⟨"v0.1.0", 3⟩)]))).saved
        = false := by
  obtain ⟨h1, h2, _, h4⟩ := rateLimit_stale_fallback defaultConfig
    (fun _ _ => .rateLimited "rl") 100 "foo" false
    (.parsed (some [("crossplane-contrib/function-foo", ⟨"v0.1.0", 3⟩)]))
    "crossplane-contrib" "function-foo" "rl" ⟨"v0.1.0", 3⟩
    (by decide) (by decide) (by decide) (by decide) (by decide) rfl
  refine ⟨?_, h2, h4⟩
  rw [h1]
  decide

/-- C3: when the remote fetch is rate limited and the cache key has no
entry at all, resolution fails, and the error is the rate-limit kind,
distinguishable from the kind used for a generic fetch failure; the cache
file is untouched and nothing is saved. -/
theorem rateLimit_no_entry_fails (cfg : Config) (fetch : String → String → FetchResult)
    (now : Int) (name : String) (forceRefresh : Bool) (file : FileState)
    (owner repo msg : String)
    (hne : name ≠ "")
    (hs : goContains name '/' = false) (hcol : goContains name ':' = false)
    (hmap : mapFunctionNameToGitHubRepo cfg.defaultOwner name = .ok (owner, repo))
    (hnone : storeLookup (loadedStore file).versions (owner ++ "/" ++ repo) = none)
    (hfetch : fetch owner repo = .rateLimited msg) :
    (inferPackageFromFunctionName cfg fetch now name forceRefresh file).result
        = .error (.rateLimitedNoCache owner repo msg) ∧
      (∀ o r m, (inferPackageFromFunctionName cfg fetch now name forceRefresh file).result
        ≠ .error (.fetchFailed o r m)) ∧
      (inferPackageFromFunctionName cfg fetch now name forceRefresh file).file = file ∧
      (inferPackageFromFunctionName cfg fetch now name forceRefresh file).saved = false := by
  rw [infer_resolution_unfold cfg fetch now name forceRefresh file owner repo hne hs hcol hmap]
  rw [getCachedVersion_no_entry _ _ _ _ hnone, if_neg (by simp)]
  unfold fetchAndFallback
  rw [hfetch, hnone]
  exact ⟨rfl, fun o r m => by simp, rfl, rfl⟩

/-- Witness for `rateLimit_no_entry_fails`: a rate-limited fetch for `foo`
with a missing cache file. -/
theorem rateLimit_no_entry_fails_witness :
    (inferPackageFromFunctionName defaultConfig (fun _ _ => .rateLimited "limit hit") 100
        "foo" false .missing).result
        = .error (.rateLimitedNoCache "crossplane-contrib" "function-foo" "limit hit") ∧
      (inferPackageFromFunctionName defaultConfig (fun _ _ => .rateLimited "limit hit") 100
        "foo" false .missing).result
        ≠ .error (.fetchFailed "crossplane-contrib" "function-foo" "limit hit") := by
  obtain ⟨h1, h2, _, _⟩ := rateLimit_no_entry_fails defaultConfig
    (fun _ _ => .rateLimited "limit hit") 100 "foo" false .missing
    "crossplane-contrib" "function-foo" "limit hit"
    (by decide) (by decide) (by decide) (by decide) (by decide) rfl
  exact ⟨h1, h2 "crossplane-contrib" "function-foo" "limit hit"⟩

/-- C7: with `forceRefresh = true` on a non-pass-through name, a remote
fetch is attempted even when a fresh cache entry exists, and the
stale-fallback on a rate-limited fetch still applies: if an entry exists
under the key, resolution returns that entry's version. -/
theorem forceRefresh_always_fetches (cfg : Config) (fetch : String → String → FetchResult)
    (now : Int) (name : String) (file : FileState) (owner repo : String)
    (hne : name ≠ "")
    (hs : goContains name '/' = false) (hcol : goContains name ':' = false)
    (hmap : mapFunctionNameToGitHubRepo cfg.defaultOwner name = .ok (owner, repo)) :
    (inferPackageFromFunctionName cfg fetch now name true file).fetched = true ∧
      (∀ msg entry, fetch owner repo = .rateLimited msg →
        storeLookup (loadedStore file).versions (owner ++ "/" ++ repo) = some entry →
        (inferPackageFromFunctionName cfg fetch now name true file).result
          = .ok (packageCoordinate cfg name owner repo entry.version)) := by
  rw [infer_resolution_unfold cfg fetch now name true file owner repo hne hs hcol hmap]
  rw [if_neg (by simp)]
  constructor
  · unfold fetchAndFallback
    cases hfr : fetch owner repo with
    | ok v => rfl
    | rateLimited m =>
      cases hl : storeLookup (loadedStore file).versions (owner ++ "/" ++ repo) with
      | none => rfl
      | some e => rfl
    | failure m => rfl
  · intro msg entry hfetch hentry
    unfold fetchAndFallback
    rw [hfetch, hentry]

/-- Witness for `forceRefresh_always_fetches`: a fresh cache entry
(fetched at time 99, checked at time 100, TTL 24h) together with a
rate-limited oracle; the fetch is still attempted and the fallback applies. -/
theorem forceRefresh_always_fetches_witness :
    (inferPackageFromFunctionName defaultConfig (fun _ _ => .rateLimited "rl") 100 "foo"
        true (.parsed (some [("crossplane-contrib/function-foo", ⟨"v0.1.0", 99⟩)]))).fetched
        = true ∧
      (inferPackageFromFunctionName defaultConfig (fun _ _ => .rateLimited "rl") 100 "foo"
        true (.parsed (some [("crossplane-contrib/function-foo", ⟨"v0.1.0", 99⟩)]))).result
        = .ok "xpkg.crossplane.io/crossplane-contrib/function-foo:v0.1.0" := by
  obtain ⟨h1, h2⟩ := forceRefresh_always_fetches defaultConfig
    (fun _ _ => .rateLimited "rl") 100 "foo"
    (.parsed (some [("crossplane-contrib/function-foo", ⟨"v0.1.0", 99⟩)]))
    "crossplane-contrib" "function-foo"
    (by decide) (by decide) (by decide) (by decide)
  refine ⟨h1, ?_⟩
  rw [h2 "rl" ⟨"v0.1.0", 99⟩ rfl (by decide)]
  decide

theorem selectRegistry_eq_upbound (u d n : String) (hud : u ≠ d) :
    ∀ l : List String, (selectRegistry u d n l = u ↔ ∃ e ∈ l, goTrimSpace e = n) := by
  intro l
  induction l with
  | nil =>
    simp only [selectRegistry, List.not_mem_nil, false_and, exists_false, iff_false]
    exact fun h => hud h.symm
  | cons fn rest ih =>
    by_cases hfn : goTrimSpace fn = n
    · simp [selectRegistry, hfn]
    · simp only [selectRegistry, if_neg hfn, ih, List.mem_cons]
      constructor
      · rintro ⟨e, he, hp⟩
        exact ⟨e, Or.inr he, hp⟩
      · rintro ⟨e, he | he, hp⟩
        · exact absurd (he ▸ hp) hfn
        · exact ⟨e, he, hp⟩

/-- C10: registry selection compares the raw function-reference name
against the whitespace-trimmed allow-list entries — the secondary registry
is chosen exactly when the raw name equals some trimmed entry — and the
comparison is not performed on the mapped repo name: under the default
configuration, `unit-test` maps to repo `function-unit-test`, which is in
the allow-list, yet resolution of `unit-test` uses the primary registry,
while the raw name `function-unit-test` uses the secondary one. -/
theorem registry_selected_on_raw_name :
    (∀ (cfg : Config) (name : String), cfg.upboundRegistry ≠ cfg.defaultRegistry →
      (getPackageRegistry cfg name = cfg.upboundRegistry ↔
        ∃ e ∈ cfg.upboundFunctions, goTrimSpace e = name)) ∧
      getPackageRegistry defaultConfig "unit-test" = "xpkg.crossplane.io" ∧
      mapFunctionNameToGitHubRepo defaultConfig.defaultOwner "unit-test"
        = .ok ("crossplane-contrib", "function-unit-test") ∧
      (∃ e ∈ defaultConfig.upboundFunctions, goTrimSpace e = "function-unit-test") ∧
      (inferPackageFromFunctionName defaultConfig (fun _ _ => .ok "v1.0.0") 0 "unit-test"
          false .missing).result
        = .ok "xpkg.crossplane.io/crossplane-contrib/function-unit-test:v1.0.0" ∧
      getPackageRegistry defaultConfig "function-unit-test" = "xpkg.upbound.io" := by
  refine ⟨fun cfg name hud => selectRegistry_eq_upbound _ _ _ hud cfg.upboundFunctions,
    by decide, by decide, ⟨"function-unit-test", by decide, by decide⟩, by decide, by decide⟩

/-- Witness for `registry_selected_on_raw_name`: the allow-list membership
criterion applied at the default configuration. -/
theorem registry_selected_on_raw_name_witness :
    getPackageRegistry defaultConfig "function-unit-test" = defaultConfig.upboundRegistry ∧
      ¬getPackageRegistry defaultConfig "unit-test" = defaultConfig.upboundRegistry :=
  ⟨(registry_selected_on_raw_name.1 defaultConfig "function-unit-test" (by decide)).mpr
      ⟨"function-unit-test", by decide, by decide⟩,
    fun h => by
      obtain ⟨e, he, hp⟩ :=
        (registry_selected_on_raw_name.1 defaultConfig "unit-test" (by decide)).mp h
      simp only [defaultConfig, List.mem_singleton] at he
      subst he
      exact absurd hp (by decide)⟩

/-- Composition mode (`comp.Spec.Mode`): either `Pipeline` or some other
mode. -/
inductive CompositionMode where
  | pipeline
  | resources
deriving DecidableEq

/-- PipelineStep: one pipeline step, carrying its `FunctionRef.Name`. -/
structure PipelineStep where
  functionRefName : String
deriving DecidableEq

/-- Composition as consumed by the extractor: its mode and its ordered
pipeline of steps. -/
structure Composition where
  mode : CompositionMode
  pipeline : List PipelineStep
deriving DecidableEq

/-- Function resource emitted by the extractor: its name and the resolved
`Spec.Package` coordinate. -/
structure FunctionResource where
  name : String
  pkg : String
deriving DecidableEq

/-- Errors of `ExtractFunctionsFromComposition`, with the resolver's error
type as parameter (`cannotDetermine` wraps it with the function name, as in
`cannot determine package for function %q`). -/
inductive ExtractErr (ε : Type) where
  | notPipelineMode
  | emptyPipeline
  | cannotDetermine (name : String) (err : ε)
  | noFunctionsFound
deriving DecidableEq

/-- Loop body of `ExtractFunctionsFromComposition` (`cmd/functions.go`
lines 173-200): iterate the steps in order, skip empty names and names
already seen, resolve new names through the resolver (which threads a state
of type `σ`, standing for the cache file and any other effect of
`inferPackageFromFunctionName`), abort on the first resolver error, and
append descriptors in first-seen order. -/
def extractLoop {σ ε : Type} (resolve : String → σ → Except ε (String × σ)) :
    List PipelineStep → List String → List FunctionResource → σ →
      Except (ExtractErr ε) (List FunctionResource × σ)
  | [], _, fns, s => .ok (fns, s)
  | step :: rest, seen, fns, s =>
    if step.functionRefName = "" then extractLoop resolve rest seen fns s
    else if step.functionRefName ∈ seen then extractLoop resolve rest seen fns s
    else
      match resolve step.functionRefName s with
      | .error e => .error (.cannotDetermine step.functionRefName e)
      | .ok (pkg, s') =>
        extractLoop resolve rest (seen ++ [step.functionRefName])
          (fns ++ [⟨step.functionRefName, pkg⟩]) s'

/-- Embedding of `ExtractFunctionsFromComposition` (`cmd/functions.go`
lines 155-207), generic over the resolver. -/
def ExtractFunctionsFromComposition {σ ε : Type}
    (resolve : String → σ → Except ε (String × σ)) (comp : Composition) (s : σ) :
    Except (ExtractErr ε) (List FunctionResource × σ) :=
  if comp.mode ≠ CompositionMode.pipeline then .error .notPipelineMode
  else if comp.pipeline = [] then .error .emptyPipeline
  else
    match extractLoop resolve comp.pipeline [] [] s with
    | .error e => .error e
    | .ok (fns, s') => if fns = [] then .error .noFunctionsFound else .ok (fns, s')

/-- Resolver instrumentation for the dedup/ordering claim: every name
resolves successfully (to `f name`), and the state records the sequence of
names the resolver was actually asked to resolve. -/
def loggingResolve (f : String → String) :
    String → List String → Except Unit (String × List String) :=
  fun n log => .ok (f n, log ++ [n])

/-- Mirror of the loop's dedup behaviour on the bare name list, carried out
from an initial seen-set. -/
def dedupFromSeen (seen : List String) : List String → List String
  | [] => seen
  | n :: rest =>
    if n = "" then dedupFromSeen seen rest
    else if n ∈ seen then dedupFromSeen seen rest
    else dedupFromSeen (seen ++ [n]) rest

/-- Specification-side description of the emitted name sequence: the
distinct non-empty function-reference names, in first-seen order. -/
def specDistinctFirstSeen (names : List String) : List String :=
  (names.filter (fun n => n != "")).foldl
    (fun acc n => if n ∈ acc then acc else acc ++ [n]) []

theorem extractLoop_logging (f : String → String) (steps : List PipelineStep) :
    ∀ seen : List String,
      extractLoop (loggingResolve f) steps seen
          (seen.map fun n => ⟨n, f n⟩) seen
        = .ok ((dedupFromSeen seen (steps.map PipelineStep.functionRefName)).map
              (fun n => ⟨n, f n⟩),
            dedupFromSeen seen (steps.map PipelineStep.functionRefName)) := by
  induction steps with
  | nil => intro seen; rfl
  | cons step rest ih =>
    intro seen
    by_cases h0 : step.functionRefName = ""
    · rw [extractLoop, if_pos h0, ih seen]
      rw [List.map_cons, dedupFromSeen, if_pos h0]
    · by_cases hmem : step.functionRefName ∈ seen
      · rw [extractLoop, if_neg h0, if_pos hmem, ih seen]
        rw [List.map_cons, dedupFromSeen, if_neg h0, if_pos hmem]
      · have h := ih (seen ++ [step.functionRefName])
        rw [List.map_append] at h
        simp only [List.map_cons, List.map_nil] at h
        rw [extractLoop, if_neg h0, if_neg hmem]
        show extractLoop (loggingResolve f) rest (seen ++ [step.functionRefName])
            ((seen.map fun n => ⟨n, f n⟩) ++ [⟨step.functionRefName, f step.functionRefName⟩])
            (seen ++ [step.functionRefName]) = _
        rw [h]
        rw [List.map_cons, dedupFromSeen, if_neg h0, if_neg hmem]

theorem dedupFromSeen_foldl (names : List String) :
    ∀ seen : List String,
      dedupFromSeen seen (names.filter (fun n => n != ""))
        = (names.filter (fun n => n != "")).foldl
            (fun acc n => if n ∈ acc then acc else acc ++ [n]) seen := by
  induction names with
  | nil => intro seen; rfl
  | cons n rest ih =>
    intro seen
    by_cases h0 : n = ""
    · rw [List.filter_cons_of_neg (by simp [h0])]
      exact ih seen
    · rw [List.filter_cons_of_pos (by simp [h0])]
      by_cases hmem : n ∈ seen
      · rw [dedupFromSeen, if_neg h0, if_pos hmem, List.foldl_cons, if_pos hmem]
        exact ih seen
      · rw [dedupFromSeen, if_neg h0, if_neg hmem, List.foldl_cons, if_neg hmem]
        exact ih (seen ++ [n])

theorem dedupFromSeen_skips_empty (names : List String) :
    ∀ seen : List String,
      dedupFromSeen seen names = dedupFromSeen seen (names.filter (fun n => n != "")) := by
  induction names with
  | nil => intro seen; rfl
  | cons n rest ih =>
    intro seen
    by_cases h0 : n = ""
    · rw [dedupFromSeen, if_pos h0, List.filter_cons_of_neg (by simp [h0])]
      exact ih seen
    · rw [dedupFromSeen, if_neg h0, List.filter_cons_of_pos (by simp [h0])]
      by_cases hmem : n ∈ seen
      · rw [if_pos hmem, dedupFromSeen, if_neg h0, if_pos hmem]
        exact ih seen
      · rw [if_neg hmem, dedupFromSeen, if_neg h0, if_neg hmem]
        exact ih (seen ++ [n])

theorem dedupFromSeen_spec (names : List String) :
    dedupFromSeen [] names = specDistinctFirstSeen names := by
  rw [dedupFromSeen_skips_empty, dedupFromSeen_foldl]
  rfl

/-- C4: with a resolver that always succeeds and logs its calls, extraction
from a pipeline-mode composition with a non-empty pipeline visits steps in
order, skips empty names, asks the resolver exactly once per distinct
non-empty name (the log equals the distinct-name list), and emits one
descriptor per distinct name in first-seen order; if no descriptor is
produced it fails with the no-functions error.  In particular a pipeline
referencing `A`, `B`, `A` yields exactly the descriptors for `A` then `B`. -/
theorem extract_firstSeen_distinct (f : String → String) (comp : Composition)
    (hm : comp.mode = CompositionMode.pipeline) (hne : comp.pipeline ≠ []) :
    ExtractFunctionsFromComposition (loggingResolve f) comp []
      = (if specDistinctFirstSeen (comp.pipeline.map PipelineStep.functionRefName) = [] then
          .error .noFunctionsFound
        else
          .ok ((specDistinctFirstSeen (comp.pipeline.map PipelineStep.functionRefName)).map
              (fun n => ⟨n, f n⟩),
            specDistinctFirstSeen (comp.pipeline.map PipelineStep.functionRefName))) := by
  unfold ExtractFunctionsFromComposition
  rw [if_neg (by simp [hm]), if_neg hne]
  have h := extractLoop_logging f comp.pipeline []
  rw [List.map_nil] at h
  rw [h, dedupFromSeen_spec]
  by_cases hd : specDistinctFirstSeen (comp.pipeline.map PipelineStep.functionRefName) = []
  · rw [if_pos hd, hd]
    rfl
  · rw [if_neg hd]
    have hmap : (specDistinctFirstSeen (comp.pipeline.map PipelineStep.functionRefName)).map
        (fun n => (⟨n, f n⟩ : FunctionResource)) ≠ [] := by
      simpa [List.map_eq_nil_iff] using hd
    simp [hmap]

/-- Witness for `extract_firstSeen_distinct`: the pipeline `A`, `B`, `A`
yields exactly two descriptors, for `A` then `B`, in that order, and the
resolver was called exactly on `A` then `B`. -/
theorem extract_firstSeen_distinct_witness :
    ExtractFunctionsFromComposition (loggingResolve fun n => "pkg-" ++ n)
        ⟨.pipeline, [⟨"A"⟩, ⟨"B"⟩, ⟨"A"⟩]⟩ []
      = .ok ([⟨"A", "pkg-A"⟩, ⟨"B", "pkg-B"⟩], ["A", "B"]) := by
  rw [extract_firstSeen_distinct (fun n => "pkg-" ++ n) ⟨.pipeline, [⟨"A"⟩, ⟨"B"⟩, ⟨"A"⟩]⟩
    rfl (by decide)]
  decide

end Crossbench
